import Mathlib

/-!
Verification development for the PDF text editor.

The definitions below are a shallow embedding of the editor's TypeScript
sources: the document store (`loadPDF`, `addTextBox`, `updateTextBox`,
`deleteTextBox`, `saveHistory`, `undo`, `redo`, `selectTextBox`), the editor
preference store (`setDefaultFontSize`), the toolbar handlers
(`updateFontSize`, `exportFileName`), the page click handler (`makeTextBox`),
and the export utilities (`wrapText`, `hexToRgb`, `drawTextBox`).
JavaScript numbers are modelled as rationals, strings as Lean strings or
character lists, and the zustand stores as explicit state-passing functions.
-/

namespace PDFEditor

/-- Rendering mode of a text box (src/types.ts `TextBoxMode`). -/
inductive TextBoxMode
  | overlay
  | replace
deriving DecidableEq

/-- Font family enumeration (src/types.ts `FontFamily`). -/
inductive FontFamily
  | helvetica
  | timesRoman
  | courier
  | inter
deriving DecidableEq

/-- Font weight (src/types.ts `FontWeight`). -/
inductive FontWeight
  | normal
  | bold
deriving DecidableEq

/-- Text alignment (src/types.ts `TextAlign`). -/
inductive TextAlign
  | left
  | center
  | right
deriving DecidableEq

/-- A text box overlay on a PDF page (src/types.ts `TextBox`).
Optional TypeScript fields become `Option` fields. -/
structure TextBox where
  id : String
  pageIndex : Int
  x : ℚ
  y : ℚ
  width : ℚ
  height : ℚ
  text : String
  fontFamily : FontFamily
  fontSize : ℚ
  color : String
  fontWeight : Option FontWeight
  textAlign : Option TextAlign
  backgroundColor : Option String
  mode : TextBoxMode
deriving DecidableEq

/-- State of a single PDF page (src/types.ts `PageState`). -/
structure PageState where
  index : Int
  width : ℚ
  height : ℚ
  textBoxes : List TextBox
deriving DecidableEq

/-- Current selection state (src/types.ts `SelectionState`). -/
structure SelectionState where
  selectedBoxId : Option String
  isEditing : Bool
deriving DecidableEq

/-- A snapshot of all page states for undo/redo (src/types.ts `HistoryState`). -/
structure HistoryState where
  pages : List PageState
deriving DecidableEq

/-- Undo/redo history (src/types.ts `UndoRedoState`). -/
structure UndoRedoState where
  past : List HistoryState
  future : List HistoryState
  canUndo : Bool
  canRedo : Bool
deriving DecidableEq

/-- Main document state (src/types.ts `DocumentState`); the `ArrayBuffer`
holding the PDF bytes is modelled as a list of naturals. -/
structure DocumentState where
  fileName : Option String
  pdfData : Option (List Nat)
  numPages : Int
  pages : List PageState
  zoom : ℚ
  panOffset : ℚ × ℚ
  selection : SelectionState
  history : UndoRedoState
  isLoaded : Bool
deriving DecidableEq

/-- The document store's initial state (useDocumentStore `initialState`). -/
def initialState : DocumentState :=
  { fileName := none
    pdfData := none
    numPages := 0
    pages := []
    zoom := 1
    panOffset := (0, 0)
    selection := { selectedBoxId := none, isEditing := false }
    history := { past := [], future := [], canUndo := false, canRedo := false }
    isLoaded := false }

/-- The store's `loadPDF` action: unconditionally installs the new document
and resets zoom, pan, selection and history. -/
def loadPDF (fileName : String) (pdfData : List Nat) (numPages : Int)
    (pages : List PageState) (s : DocumentState) : DocumentState :=
  { s with
    fileName := some fileName
    pdfData := some pdfData
    numPages := numPages
    pages := pages
    isLoaded := true
    zoom := 1
    panOffset := (0, 0)
    selection := { selectedBoxId := none, isEditing := false }
    history := { past := [], future := [], canUndo := false, canRedo := false } }

/-- The store's `setZoom` action: `Math.max(0.25, Math.min(4, zoom))`. -/
def setZoom (zoom : ℚ) (s : DocumentState) : DocumentState :=
  { s with zoom := max (1/4) (min 4 zoom) }

/-- In-place update of the element at position `i`, as in the JavaScript
array assignment `pages[i] = ...`; out-of-range indices change nothing. -/
def modifyAt {α : Type} (i : Nat) (f : α → α) : List α → List α
  | [] => []
  | a :: as =>
    match i with
    | 0 => f a :: as
    | i' + 1 => a :: modifyAt i' f as

/-- The store's `addTextBox` action: appends the box to
`pages[box.pageIndex].textBoxes` when `0 ≤ pageIndex < pages.length`,
otherwise leaves the state unchanged. -/
def addTextBox (box : TextBox) (s : DocumentState) : DocumentState :=
  if 0 ≤ box.pageIndex ∧ box.pageIndex < (s.pages.length : Int) then
    { s with
      pages := modifyAt box.pageIndex.toNat
        (fun pg => { pg with textBoxes := pg.textBoxes ++ [box] }) s.pages }
  else s

/-- A `Partial<TextBox>` value: each field either supplied or absent. -/
structure TextBoxPatch where
  id : Option String := none
  pageIndex : Option Int := none
  x : Option ℚ := none
  y : Option ℚ := none
  width : Option ℚ := none
  height : Option ℚ := none
  text : Option String := none
  fontFamily : Option FontFamily := none
  fontSize : Option ℚ := none
  color : Option String := none
  fontWeight : Option (Option FontWeight) := none
  textAlign : Option (Option TextAlign) := none
  backgroundColor : Option (Option String) := none
  mode : Option TextBoxMode := none
deriving DecidableEq

/-- The spread `{ ...box, ...updates }`: a supplied field overrides, an
absent one keeps the box's value. -/
def applyPatch (b : TextBox) (u : TextBoxPatch) : TextBox :=
  { id := u.id.getD b.id
    pageIndex := u.pageIndex.getD b.pageIndex
    x := u.x.getD b.x
    y := u.y.getD b.y
    width := u.width.getD b.width
    height := u.height.getD b.height
    text := u.text.getD b.text
    fontFamily := u.fontFamily.getD b.fontFamily
    fontSize := u.fontSize.getD b.fontSize
    color := u.color.getD b.color
    fontWeight := u.fontWeight.getD b.fontWeight
    textAlign := u.textAlign.getD b.textAlign
    backgroundColor := u.backgroundColor.getD b.backgroundColor
    mode := u.mode.getD b.mode }

/-- The store's `updateTextBox` action: maps over every page and every box,
merging the updates into each box whose id matches. -/
def updateTextBox (id : String) (u : TextBoxPatch) (s : DocumentState) :
    DocumentState :=
  { s with
    pages := s.pages.map fun pg =>
      { pg with
        textBoxes := pg.textBoxes.map fun b =>
          if b.id = id then applyPatch b u else b } }

/-- The store's `deleteTextBox` action: filters the id out of every page's
box list and resets the selection (unconditionally, as the source does). -/
def deleteTextBox (id : String) (s : DocumentState) : DocumentState :=
  { s with
    pages := s.pages.map fun pg =>
      { pg with textBoxes := pg.textBoxes.filter fun b => b.id ≠ id }
    selection := { selectedBoxId := none, isEditing := false } }

/-- The store's `selectTextBox` action. -/
def selectTextBox (id : Option String) (s : DocumentState) : DocumentState :=
  { s with selection := { selectedBoxId := id, isEditing := false } }

/-- The store's `enterEditMode` action. -/
def enterEditMode (s : DocumentState) : DocumentState :=
  match s.selection.selectedBoxId with
  | some _ => { s with selection := { s.selection with isEditing := true } }
  | none => s

/-- The store's `saveHistory` action: pushes the current pages onto `past`
and clears `future`. -/
def saveHistory (s : DocumentState) : DocumentState :=
  { s with
    history :=
      { past := s.history.past ++ [{ pages := s.pages }]
        future := []
        canUndo := true
        canRedo := false } }

/-- The store's `undo` action: no-op on empty `past`; otherwise pops the last
snapshot into `pages`, pushes the current pages onto the front of `future`
and clears the selection. -/
def undo (s : DocumentState) : DocumentState :=
  match s.history.past.getLast? with
  | none => s
  | some prev =>
    let newPast := s.history.past.dropLast
    { s with
      pages := prev.pages
      history :=
        { past := newPast
          future := { pages := s.pages } :: s.history.future
          canUndo := !newPast.isEmpty
          canRedo := true }
      selection := { selectedBoxId := none, isEditing := false } }

/-- The store's `redo` action: no-op on empty `future`; otherwise pops the
first snapshot into `pages`, pushes the current pages onto `past` and clears
the selection. -/
def redo (s : DocumentState) : DocumentState :=
  match s.history.future with
  | [] => s
  | next :: newFuture =>
    { s with
      pages := next.pages
      history :=
        { past := s.history.past ++ [{ pages := s.pages }]
          future := newFuture
          canUndo := true
          canRedo := !newFuture.isEmpty }
      selection := { selectedBoxId := none, isEditing := false } }

/-- Tool types (src/types.ts `Tool`). -/
inductive Tool
  | select
  | text
deriving DecidableEq

/-- Editor preferences (src/types.ts `EditorPreferences`). -/
structure EditorPreferences where
  activeTool : Tool
  defaultFontFamily : FontFamily
  defaultFontSize : ℚ
  defaultColor : String
  showGrid : Bool
  enableSnapping : Bool
deriving DecidableEq

/-- The editor store's `setDefaultFontSize` action:
`Math.max(1, Math.min(200, fontSize))`. -/
def setDefaultFontSize (fontSize : ℚ) (p : EditorPreferences) :
    EditorPreferences :=
  { p with defaultFontSize := max 1 (min 200 fontSize) }

/-- Combined state of the two zustand stores, as seen by the toolbar and
page components. -/
structure AppState where
  doc : DocumentState
  prefs : EditorPreferences
deriving DecidableEq

/-- The flattened list of every text box of a document, in page order. -/
def boxesOf (d : DocumentState) : List TextBox :=
  d.pages.flatMap fun pg => pg.textBoxes

/-- The toolbar's `selectedBox` computation: flat-map all pages' boxes and
find the one whose id equals the selected id. -/
def selectedBox (d : DocumentState) : Option TextBox :=
  match d.selection.selectedBoxId with
  | some id => (boxesOf d).find? fun b => b.id = id
  | none => none

/-- The toolbar's `updateFontSize` handler: when a box is selected, save
history and update that box with the raw font size; always clamp-update the
default preference. -/
def updateFontSize (fontSize : ℚ) (st : AppState) : AppState :=
  let prefs := setDefaultFontSize fontSize st.prefs
  match selectedBox st.doc with
  | some box =>
    { doc := updateTextBox box.id { fontSize := some fontSize }
        (saveHistory st.doc)
      prefs := prefs }
  | none => { st with prefs := prefs }

/-- The helper `screenToPDF` (src/utils/helpers.ts) with zero container
offset, as `handlePageClick` calls it. -/
def screenToPDF (screenX screenY zoom : ℚ) : ℚ × ℚ :=
  (screenX / zoom, screenY / zoom)

/-- The text box literal built by `handlePageClick` (PDFPage.tsx) from the
click position and the current default preferences. -/
def makeTextBox (newId : String) (pageIndex : Int) (clickX clickY zoom : ℚ)
    (prefs : EditorPreferences) : TextBox :=
  { id := newId
    pageIndex := pageIndex
    x := max 0 (screenToPDF clickX clickY zoom).1
    y := max 0 (screenToPDF clickX clickY zoom).2
    width := 200
    height := 50
    text := "New Text"
    fontFamily := prefs.defaultFontFamily
    fontSize := prefs.defaultFontSize
    color := prefs.defaultColor
    fontWeight := some FontWeight.normal
    textAlign := some TextAlign.left
    backgroundColor := none
    mode := TextBoxMode.overlay }

/-- JavaScript `String.prototype.replace` with a string pattern: only the
first occurrence of `pat` is replaced by `rep`; no occurrence leaves the
string unchanged. -/
def replaceFirst (pat rep : List Char) : List Char → List Char
  | [] => if pat.isPrefixOf ([] : List Char) then rep else []
  | c :: s =>
    if pat.isPrefixOf (c :: s) then rep ++ (c :: s).drop pat.length
    else c :: replaceFirst pat rep s

/-- The toolbar's `handleExport` file name computation:
`fileName ? fileName.replace(".pdf", "_edited.pdf") : "edited.pdf"`. -/
def exportFileName : Option String → String
  | some n => String.mk (replaceFirst ".pdf".data "_edited.pdf".data n.data)
  | none => "edited.pdf"

/-- JavaScript `text.split(sep)` for a single-character separator: every
occurrence splits, adjacent separators produce empty pieces, and the empty
string splits into `[""]`. -/
def jsSplit (sep : Char) : List Char → List (List Char)
  | [] => [[]]
  | c :: cs =>
    if c = sep then [] :: jsSplit sep cs
    else
      match jsSplit sep cs with
      | [] => [[c]]
      | w :: ws => (c :: w) :: ws

/-- One iteration of `wrapText`'s loop (src/utils/pdfExporter.ts): the
accumulator is (finished lines, current line). -/
def wrapStep (maxWidth : ℚ) (mw : List Char → ℚ → ℚ) (fontSize : ℚ)
    (acc : List (List Char) × List Char) (word : List Char) :
    List (List Char) × List Char :=
  let testLine := if acc.2 = [] then word else acc.2 ++ ' ' :: word
  if maxWidth < mw testLine fontSize ∧ acc.2 ≠ [] then (acc.1 ++ [acc.2], word)
  else (acc.1, testLine)

/-- The exporter's `wrapText`: split on single spaces, fold the greedy loop,
flush the last non-empty line. `mw` is the font's `widthOfTextAtSize`. -/
def wrapText (text : List Char) (maxWidth : ℚ) (mw : List Char → ℚ → ℚ)
    (fontSize : ℚ) : List (List Char) :=
  let r := (jsSplit ' ' text).foldl (wrapStep maxWidth mw fontSize) ([], [])
  if r.2 = [] then r.1 else r.1 ++ [r.2]

/-- One step of the word-wrap algorithm as the specification words it:
an empty current line takes the word whole (a word wider than the maximum
is emitted alone, never split); otherwise the word joins the current line
exactly when the measured width of `currentLine ++ " " ++ word` stays within
the maximum, and otherwise the current line is flushed and the word starts
the next line. -/
def specWrapStep (maxWidth : ℚ) (mw : List Char → ℚ → ℚ) (fontSize : ℚ)
    (acc : List (List Char) × List Char) (word : List Char) :
    List (List Char) × List Char :=
  if acc.2 = [] then (acc.1, word)
  else if mw (acc.2 ++ ' ' :: word) fontSize ≤ maxWidth then
    (acc.1, acc.2 ++ ' ' :: word)
  else (acc.1 ++ [acc.2], word)

/-- The word-wrap algorithm as the specification describes it, to be
compared with the source's `wrapText`. -/
def specWrapText (text : List Char) (maxWidth : ℚ) (mw : List Char → ℚ → ℚ)
    (fontSize : ℚ) : List (List Char) :=
  let r := (jsSplit ' ' text).foldl (specWrapStep maxWidth mw fontSize) ([], [])
  if r.2 = [] then r.1 else r.1 ++ [r.2]

/-- Value of one hexadecimal digit, case-insensitive (the character class
`[a-f\d]` of `hexToRgb`'s pattern with the `i` flag). -/
def hexDigitVal (c : Char) : Option Nat :=
  if '0' ≤ c ∧ c ≤ '9' then some (c.toNat - '0'.toNat)
  else if 'a' ≤ c ∧ c ≤ 'f' then some (c.toNat - 'a'.toNat + 10)
  else if 'A' ≤ c ∧ c ≤ 'F' then some (c.toNat - 'A'.toNat + 10)
  else none

/-- The exporter's `hexToRgb`: an optional `#` followed by exactly six hex
digits yields the three channels normalized by 255; anything else yields
black. -/
def hexToRgb (hex : List Char) : ℚ × ℚ × ℚ :=
  let body := match hex with
    | '#' :: rest => rest
    | l => l
  match body with
  | [c1, c2, c3, c4, c5, c6] =>
    match hexDigitVal c1, hexDigitVal c2, hexDigitVal c3, hexDigitVal c4,
        hexDigitVal c5, hexDigitVal c6 with
    | some a, some b, some c, some d, some e, some f =>
      (((a * 16 + b : ℚ)) / 255, ((c * 16 + d : ℚ)) / 255,
        ((e * 16 + f : ℚ)) / 255)
    | _, _, _, _, _, _ => (0, 0, 0)
  | _ => (0, 0, 0)

/-- A primitive drawing operation issued by the export engine. -/
inductive DrawOp
  | rect (x y width height : ℚ) (color : ℚ × ℚ × ℚ)
  | text (line : List Char) (x y size : ℚ) (color : ℚ × ℚ × ℚ)
deriving DecidableEq

/-- Whether a drawing operation is a text draw. -/
def DrawOp.isText : DrawOp → Bool
  | .rect _ _ _ _ _ => false
  | .text _ _ _ _ _ => true

/-- JavaScript truthiness default `textBox.backgroundColor || "#FFFFFF"`:
an absent or empty background color falls back to pure white. -/
def jsBg : Option String → String
  | some s => if s = "" then "#FFFFFF" else s
  | none => "#FFFFFF"

/-- The horizontal position `drawTextBox` computes for one line from the
box's alignment. -/
def alignX (mw : List Char → ℚ → ℚ) (box : TextBox) (line : List Char) : ℚ :=
  match box.textAlign with
  | some TextAlign.center => box.x + (box.width - mw line box.fontSize) / 2
  | some TextAlign.right => box.x + box.width - mw line box.fontSize - 2
  | _ => box.x + 2

/-- The line-drawing loop of `drawTextBox`: draw each line at the current
baseline, stepping down by the line height, and stop (`break`) as soon as a
baseline falls below `pdfY`. -/
def drawLinesAux (mw : List Char → ℚ → ℚ) (box : TextBox) (pdfY : ℚ)
    (textColor : ℚ × ℚ × ℚ) : List (List Char) → ℚ → List DrawOp
  | [], _ => []
  | line :: rest, currentY =>
    if currentY < pdfY then []
    else
      DrawOp.text line (alignX mw box line) currentY box.fontSize textColor ::
        drawLinesAux mw box pdfY textColor rest (currentY - box.fontSize * 1.2)

/-- The exporter's `drawTextBox` as the list of drawing operations it issues,
in order: the background rectangle first when the mode is replace, then the
wrapped text lines. `mw` stands for the embedded font's width measure. -/
def drawTextBox (mw : List Char → ℚ → ℚ) (box : TextBox) (pageHeight : ℚ) :
    List DrawOp :=
  let pdfY := pageHeight - box.y - box.height
  let rectOps : List DrawOp :=
    if box.mode = TextBoxMode.replace then
      [DrawOp.rect box.x pdfY box.width box.height
        (hexToRgb (jsBg box.backgroundColor).data)]
    else []
  let lines := wrapText box.text.data (box.width - 4) mw box.fontSize
  rectOps ++
    drawLinesAux mw box pdfY (hexToRgb box.color.data) lines
      (pdfY + box.height - box.fontSize - 2)

/-- Baseline of the i-th wrapped line as the specification words it: the
first baseline sits at
`pageHeight - box.y - box.height + box.height - fontSize - 2` and each
following line is `fontSize * 1.2` lower. -/
def specBaseline (box : TextBox) (pageHeight : ℚ) (i : Nat) : ℚ :=
  pageHeight - box.y - box.height + box.height - box.fontSize - 2 -
    i * (box.fontSize * 1.2)

/-- The text operations of one exported box as the specification words them:
lines are drawn top-down at successive baselines, and a line whose baseline
falls below the box's bottom edge `pdfY`, together with every later line, is
not drawn. -/
def specLineOps (mw : List Char → ℚ → ℚ) (box : TextBox) (pageHeight : ℚ)
    (lines : List (List Char)) : List DrawOp :=
  (((List.range lines.length).zip lines).takeWhile fun p =>
      decide (pageHeight - box.y - box.height ≤ specBaseline box pageHeight p.1)).map
    fun p =>
      DrawOp.text p.2 (alignX mw box p.2) (specBaseline box pageHeight p.1)
        box.fontSize (hexToRgb box.color.data)

/-! Concrete states used by counterexamples and witnesses. -/

/-- A sample text box with id "a" on page 0. -/
def exBox : TextBox :=
  { id := "a"
    pageIndex := 0
    x := 10
    y := 10
    width := 200
    height := 50
    text := "hi"
    fontFamily := FontFamily.helvetica
    fontSize := 12
    color := "#000000"
    fontWeight := none
    textAlign := none
    backgroundColor := none
    mode := TextBoxMode.overlay }

/-- A sample page holding `exBox`. -/
def exPage : PageState :=
  { index := 0, width := 612, height := 792, textBoxes := [exBox] }

/-- A loaded document with one page, one box, and that box selected. -/
def exDoc : DocumentState :=
  { initialState with
    pages := [exPage]
    selection := { selectedBoxId := some "a", isEditing := false }
    isLoaded := true }

/-- C2: the claim is false — `loadPDF` performs no validation, so a call
whose pages array length differs from the supplied page count still installs
the document as loaded. -/
theorem C2_load_counterexample :
    (loadPDF "a.pdf" [37, 80] 1 [] initialState).isLoaded = true
    ∧ (([] : List PageState).length : Int) ≠ 1 := by
  exact ⟨rfl, by decide⟩

/-- C2 amended: `loadPDF` never fails; on every call — the pages array's
length matching the page count or not — it installs the document as loaded,
replaces the document fields, and resets zoom to 1.0, pan to the origin,
selection to none and history to empty. -/
theorem C2_load_amended (fn : String) (data : List Nat) (n : Int)
    (pgs : List PageState) (s : DocumentState) :
    (loadPDF fn data n pgs s).isLoaded = true
    ∧ (loadPDF fn data n pgs s).fileName = some fn
    ∧ (loadPDF fn data n pgs s).pdfData = some data
    ∧ (loadPDF fn data n pgs s).numPages = n
    ∧ (loadPDF fn data n pgs s).pages = pgs
    ∧ (loadPDF fn data n pgs s).zoom = 1
    ∧ (loadPDF fn data n pgs s).panOffset = (0, 0)
    ∧ (loadPDF fn data n pgs s).selection
        = { selectedBoxId := none, isEditing := false }
    ∧ (loadPDF fn data n pgs s).history
        = { past := [], future := [], canUndo := false, canRedo := false } :=
  ⟨rfl, rfl, rfl, rfl, rfl, rfl, rfl, rfl, rfl⟩

/-- C3: the claim is false — deleting an id held by no box is not a silent
no-op: here no box has id "b", yet the call resets the selection (the state
changes). -/
theorem C3_delete_counterexample :
    (∀ pg ∈ exDoc.pages, ∀ b ∈ pg.textBoxes, b.id ≠ "b")
    ∧ (deleteTextBox "b" exDoc).selection = { selectedBoxId := none, isEditing := false }
    ∧ exDoc.selection = { selectedBoxId := some "a", isEditing := false }
    ∧ ({ selectedBoxId := none, isEditing := false } : SelectionState)
        ≠ { selectedBoxId := some "a", isEditing := false } := by
  refine ⟨?_, by with_unfolding_all rfl, by with_unfolding_all rfl, by decide⟩
  intro pg hpg b hb
  fin_cases hpg
  fin_cases hb
  decide

/-- C3 amended: `deleteTextBox id` removes every box with that id from
whichever page holds it and unconditionally resets the selection to none —
whether or not the deleted box was the selected one; when no box has the id
the pages (and every other field) are left unchanged, but the selection is
still cleared. -/
theorem C3_delete_amended (s : DocumentState) (id : String) :
    (deleteTextBox id s).selection = { selectedBoxId := none, isEditing := false }
    ∧ List.Forall₂ (fun pg pg' =>
        pg'.index = pg.index ∧ pg'.width = pg.width ∧ pg'.height = pg.height ∧
          ∀ b, b ∈ pg'.textBoxes ↔ b ∈ pg.textBoxes ∧ b.id ≠ id)
        s.pages (deleteTextBox id s).pages
    ∧ ((∀ pg ∈ s.pages, ∀ b ∈ pg.textBoxes, b.id ≠ id) →
        deleteTextBox id s
          = { s with selection := { selectedBoxId := none, isEditing := false } }) := by
  refine ⟨rfl, ?_, ?_⟩
  · show List.Forall₂ _ s.pages (s.pages.map _)
    rw [List.forall₂_map_right_iff]
    rw [List.forall₂_same]
    intro pg _
    refine ⟨rfl, rfl, rfl, fun b => ?_⟩
    simp [List.mem_filter]
  · intro h
    show { s with
        pages := s.pages.map fun pg =>
          { pg with textBoxes := pg.textBoxes.filter fun b => b.id ≠ id }
        selection := { selectedBoxId := none, isEditing := false } }
      = { s with selection := { selectedBoxId := none, isEditing := false } }
    have hp : (s.pages.map fun pg =>
        { pg with textBoxes := pg.textBoxes.filter fun b => b.id ≠ id }) = s.pages := by
      have : ∀ pg ∈ s.pages,
          ({ pg with textBoxes := pg.textBoxes.filter fun b => b.id ≠ id } : PageState)
            = pg := by
        intro pg hpg
        have : (pg.textBoxes.filter fun b => b.id ≠ id) = pg.textBoxes :=
          List.filter_eq_self.mpr fun b hb => by
            simpa using h pg hpg b hb
        rw [this]
      calc (s.pages.map fun pg =>
              { pg with textBoxes := pg.textBoxes.filter fun b => b.id ≠ id })
          = s.pages.map (fun pg => pg) := List.map_congr_left this
        _ = s.pages := List.map_id' s.pages
    rw [hp]

/-- C8: invalid references are no-ops on the pages — `updateTextBox` with an
id no box carries leaves the pages unchanged, and `addTextBox` with a page
index that is the page count or negative leaves the pages unchanged. -/
theorem C8_invalid_reference_noops (s : DocumentState) (id : String)
    (u : TextBoxPatch) (box : TextBox)
    (h1 : ∀ pg ∈ s.pages, ∀ b ∈ pg.textBoxes, b.id ≠ id)
    (h2 : box.pageIndex = (s.pages.length : Int) ∨ box.pageIndex < 0) :
    (updateTextBox id u s).pages = s.pages ∧ (addTextBox box s).pages = s.pages := by
  constructor
  · show (s.pages.map fun pg =>
        { pg with textBoxes := pg.textBoxes.map fun b =>
            if b.id = id then applyPatch b u else b }) = s.pages
    have hfix : ∀ pg ∈ s.pages,
        ({ pg with textBoxes := pg.textBoxes.map fun b =>
            if b.id = id then applyPatch b u else b } : PageState) = pg := by
      intro pg hpg
      have : (pg.textBoxes.map fun b => if b.id = id then applyPatch b u else b)
          = pg.textBoxes := by
        calc (pg.textBoxes.map fun b => if b.id = id then applyPatch b u else b)
            = pg.textBoxes.map (fun b => b) :=
              List.map_congr_left fun b hb => if_neg (h1 pg hpg b hb)
          _ = pg.textBoxes := List.map_id' pg.textBoxes
      rw [this]
    calc (s.pages.map fun pg =>
            { pg with textBoxes := pg.textBoxes.map fun b =>
                if b.id = id then applyPatch b u else b })
        = s.pages.map (fun pg => pg) := List.map_congr_left hfix
      _ = s.pages := List.map_id' s.pages
  · have hc : ¬ (0 ≤ box.pageIndex ∧ box.pageIndex < (s.pages.length : Int)) := by
      rcases h2 with h | h
      · rintro ⟨_, hlt⟩
        rw [h] at hlt
        exact lt_irrefl _ hlt
      · rintro ⟨hge, _⟩
        exact absurd hge (not_le.mpr h)
    simp only [addTextBox, if_neg hc]

/-- C8 witness: the no-ops at a concrete loaded document — an id no box
carries, and a box addressed at page index `pages.length`. -/
theorem C8_invalid_reference_noops_witness :
    (updateTextBox "nonexistent" {} exDoc).pages = exDoc.pages
    ∧ (addTextBox { exBox with pageIndex := 1 } exDoc).pages = exDoc.pages :=
  C8_invalid_reference_noops exDoc "nonexistent" {} { exBox with pageIndex := 1 }
    (by
      intro pg hpg b hb
      fin_cases hpg
      fin_cases hb
      decide)
    (Or.inl (by decide))

/-- C10: `updateTextBox` is frame-preserving — the document's file name, PDF
bytes, page count, zoom, pan, selection (never cleared), history and loaded
flag are untouched; every page keeps its index, dimensions, box count and
box order; a box whose id differs is unchanged, a box whose id matches
receives exactly the merged patch; and the merge keeps every unsupplied
field of the box. -/
theorem C10_update_frame (s : DocumentState) (id : String) (u : TextBoxPatch) :
    (updateTextBox id u s).fileName = s.fileName
    ∧ (updateTextBox id u s).pdfData = s.pdfData
    ∧ (updateTextBox id u s).numPages = s.numPages
    ∧ (updateTextBox id u s).zoom = s.zoom
    ∧ (updateTextBox id u s).panOffset = s.panOffset
    ∧ (updateTextBox id u s).selection = s.selection
    ∧ (updateTextBox id u s).history = s.history
    ∧ (updateTextBox id u s).isLoaded = s.isLoaded
    ∧ (updateTextBox id u s).pages.length = s.pages.length
    ∧ List.Forall₂ (fun pg pg' =>
        pg'.index = pg.index ∧ pg'.width = pg.width ∧ pg'.height = pg.height
          ∧ pg'.textBoxes.length = pg.textBoxes.length
          ∧ List.Forall₂ (fun b b' =>
              (b.id ≠ id → b' = b) ∧ (b.id = id → b' = applyPatch b u))
              pg.textBoxes pg'.textBoxes)
        s.pages (updateTextBox id u s).pages
    ∧ (∀ b : TextBox,
        (u.id = none → (applyPatch b u).id = b.id)
        ∧ (u.pageIndex = none → (applyPatch b u).pageIndex = b.pageIndex)
        ∧ (u.x = none → (applyPatch b u).x = b.x)
        ∧ (u.y = none → (applyPatch b u).y = b.y)
        ∧ (u.width = none → (applyPatch b u).width = b.width)
        ∧ (u.height = none → (applyPatch b u).height = b.height)
        ∧ (u.text = none → (applyPatch b u).text = b.text)
        ∧ (u.fontFamily = none → (applyPatch b u).fontFamily = b.fontFamily)
        ∧ (u.fontSize = none → (applyPatch b u).fontSize = b.fontSize)
        ∧ (u.color = none → (applyPatch b u).color = b.color)
        ∧ (u.fontWeight = none → (applyPatch b u).fontWeight = b.fontWeight)
        ∧ (u.textAlign = none → (applyPatch b u).textAlign = b.textAlign)
        ∧ (u.backgroundColor = none →
            (applyPatch b u).backgroundColor = b.backgroundColor)
        ∧ (u.mode = none → (applyPatch b u).mode = b.mode)) := by
  refine ⟨rfl, rfl, rfl, rfl, rfl, rfl, rfl, rfl, ?_, ?_, ?_⟩
  · exact List.length_map s.pages _
  · show List.Forall₂ _ s.pages (s.pages.map _)
    rw [List.forall₂_map_right_iff, List.forall₂_same]
    intro pg _
    refine ⟨rfl, rfl, rfl, List.length_map pg.textBoxes _, ?_⟩
    show List.Forall₂ _ pg.textBoxes (pg.textBoxes.map _)
    rw [List.forall₂_map_right_iff, List.forall₂_same]
    intro b _
    exact ⟨fun hne => if_neg hne, fun he => if_pos he⟩
  · intro b
    refine ⟨?_, ?_, ?_, ?_, ?_, ?_, ?_, ?_, ?_, ?_, ?_, ?_, ?_, ?_⟩ <;>
      · intro h
        simp [applyPatch, h]

/-- When the pattern occurs nowhere in the string (no position up to its
length starts an occurrence), the first-occurrence replace returns the
string unchanged. -/
theorem replaceFirst_of_no_occurrence (pat rep : List Char) :
    ∀ s : List Char,
      (∀ i ≤ s.length, pat.isPrefixOf (s.drop i) = false) →
      replaceFirst pat rep s = s := by
  intro s
  induction s with
  | nil =>
    intro h
    have h0 : pat.isPrefixOf ([] : List Char) = false := by
      simpa using h 0 (Nat.le_refl 0)
    simp [replaceFirst, h0]
  | cons c s ih =>
    intro h
    have h0 : pat.isPrefixOf (c :: s) = false := by
      simpa using h 0 (Nat.zero_le _)
    have hrec : replaceFirst pat rep s = s :=
      ih fun i hi => by simpa using h (i + 1) (Nat.succ_le_succ hi)
    simp [replaceFirst, h0, hrec]

/-- When the first occurrence of the pattern starts at position `i` (it
occurs there, and at no earlier position), the first-occurrence replace
rewrites exactly that occurrence: the characters before `i` and from
`i + pat.length` on are kept, with `rep` in between. -/
theorem replaceFirst_first_occurrence (pat rep : List Char) :
    ∀ (s : List Char) (i : Nat),
      pat.isPrefixOf (s.drop i) = true →
      (∀ j < i, pat.isPrefixOf (s.drop j) = false) →
      replaceFirst pat rep s = s.take i ++ rep ++ s.drop (i + pat.length) := by
  intro s
  induction s with
  | nil =>
    intro i hocc _
    have hpat : pat = [] := by
      have hpre : pat <+: ([] : List Char) :=
        List.isPrefixOf_iff_prefix.mp (by simpa using hocc)
      simpa using hpre
    subst hpat
    simp [replaceFirst]
  | cons c s ih =>
    intro i hocc hfirst
    cases i with
    | zero =>
      have hocc0 : pat.isPrefixOf (c :: s) = true := by simpa using hocc
      simp [replaceFirst, hocc0]
    | succ i =>
      have h0 : pat.isPrefixOf (c :: s) = false := by
        simpa using hfirst 0 (Nat.succ_pos i)
      have hocc' : pat.isPrefixOf (s.drop i) = true := by simpa using hocc
      have hfirst' : ∀ j < i, pat.isPrefixOf (s.drop j) = false := fun j hj => by
        simpa using hfirst (j + 1) (Nat.succ_lt_succ hj)
      have harith : i + 1 + pat.length = (i + pat.length) + 1 := by omega
      rw [harith]
      simp [replaceFirst, h0, ih i hocc' hfirst']

/-- C4: the claim is false at two concrete names — a name with ".pdf" in the
middle has that first occurrence replaced, not the trailing extension, and a
name without ".pdf" is returned unchanged, with nothing appended. -/
theorem C4_export_name_counterexample :
    exportFileName (some "my.pdf.backup.pdf") = "my_edited.pdf.backup.pdf"
    ∧ "my_edited.pdf.backup.pdf" ≠ "my.pdf.backup_edited.pdf"
    ∧ exportFileName (some "report") = "report"
    ∧ "report" ≠ "report_edited.pdf" := by
  exact ⟨by with_unfolding_all rfl, by decide, by with_unfolding_all rfl, by decide⟩

/-- C4 amended, for every original name: a name in which ".pdf" occurs
nowhere is used unchanged, with nothing appended; a name whose first
occurrence of ".pdf" starts at position i has exactly that occurrence
replaced by "_edited.pdf" (so the claimed name results exactly when the
first occurrence is the trailing extension); and with no original name the
result is "edited.pdf". -/
theorem C4_export_name_amended (s : List Char) :
    ((∀ i ≤ s.length, (".pdf".data).isPrefixOf (s.drop i) = false) →
        exportFileName (some (String.mk s)) = String.mk s)
    ∧ (∀ i, (".pdf".data).isPrefixOf (s.drop i) = true →
        (∀ j < i, (".pdf".data).isPrefixOf (s.drop j) = false) →
        exportFileName (some (String.mk s))
          = String.mk (s.take i ++ "_edited.pdf".data ++ s.drop (i + 4)))
    ∧ exportFileName none = "edited.pdf" := by
  refine ⟨?_, ?_, rfl⟩
  · intro h
    exact congrArg String.mk
      (replaceFirst_of_no_occurrence ".pdf".data "_edited.pdf".data s h)
  · intro i hocc hfirst
    have h4 : (".pdf".data).length = 4 := rfl
    have hr :=
      replaceFirst_first_occurrence ".pdf".data "_edited.pdf".data s i hocc hfirst
    rw [h4] at hr
    exact congrArg String.mk hr

/-- C4 witness: the amended statement at concrete names — the mid-string
first occurrence of "my.pdf.backup.pdf" at position 2, and the unchanged
name "report" with no occurrence. -/
theorem C4_export_name_amended_witness :
    exportFileName (some (String.mk "my.pdf.backup.pdf".data))
      = String.mk ("my.pdf.backup.pdf".data.take 2 ++ "_edited.pdf".data
          ++ "my.pdf.backup.pdf".data.drop 6)
    ∧ exportFileName (some (String.mk "report".data)) = String.mk "report".data
    ∧ exportFileName none = "edited.pdf" :=
  ⟨(C4_export_name_amended "my.pdf.backup.pdf".data).2.1 2 (by decide) (by decide),
    (C4_export_name_amended "report".data).1 (by decide),
    (C4_export_name_amended "report".data).2.2⟩

/-- Sample editor preferences: the store's initial preferences. -/
def exPrefs : EditorPreferences :=
  { activeTool := Tool.select
    defaultFontFamily := FontFamily.helvetica
    defaultFontSize := 12
    defaultColor := "#000000"
    showGrid := false
    enableSnapping := true }

/-- Combined sample state: the loaded document with its box selected. -/
def exApp : AppState := { doc := exDoc, prefs := exPrefs }

/-- C5: the claim is false — changing the selected box's font size stores
the raw numeric input: at input 500 the stored box font size becomes 500,
outside [1,200]. -/
theorem C5_font_size_counterexample :
    ((updateFontSize 500 exApp).doc.pages.map fun pg =>
        pg.textBoxes.map fun b => b.fontSize) = [[500]]
    ∧ ¬ ((500 : ℚ) ≤ 200) := by
  exact ⟨by with_unfolding_all rfl, of_decide_eq_true (by with_unfolding_all rfl)⟩

/-- C5 amended: only the default font size is clamped — `setDefaultFontSize`
stores a value in [1,200] for every numeric input, and a box created by the
page-click flow carries exactly the default font size; but changing the
selected box's font size stores the raw input unclamped, so every box whose
id matches the selected box ends with precisely the supplied value. -/
theorem C5_font_size_amended (x : ℚ) (p : EditorPreferences) (fs : ℚ)
    (st : AppState) (box : TextBox) (h : selectedBox st.doc = some box) :
    (1 ≤ (setDefaultFontSize x p).defaultFontSize
      ∧ (setDefaultFontSize x p).defaultFontSize ≤ 200)
    ∧ (∀ newId pageIndex clickX clickY zoom,
        (makeTextBox newId pageIndex clickX clickY zoom p).fontSize
          = p.defaultFontSize)
    ∧ (∀ b ∈ boxesOf (updateFontSize fs st).doc,
        b.id = box.id → b.fontSize = fs) := by
  refine ⟨⟨le_max_left 1 _, max_le (by norm_num) (min_le_left 200 x)⟩,
    fun _ _ _ _ _ => rfl, ?_⟩
  intro b hb hid
  simp only [updateFontSize, h] at hb
  simp only [boxesOf, updateTextBox, List.mem_flatMap, List.mem_map] at hb
  obtain ⟨pg', ⟨pg, hpg, rfl⟩, hbpg⟩ := hb
  simp only [List.mem_map] at hbpg
  obtain ⟨b0, hb0, rfl⟩ := hbpg
  by_cases hcase : b0.id = box.id
  · simp [hcase, applyPatch]
  · simp only [if_neg hcase] at hid ⊢
    exact absurd hid hcase

/-- C5 witness: the amended statement at the concrete selected document and
input 500, where the clamped default lands at 200. -/
theorem C5_font_size_amended_witness :
    1 ≤ (setDefaultFontSize 500 exPrefs).defaultFontSize
    ∧ (setDefaultFontSize 500 exPrefs).defaultFontSize ≤ 200 :=
  (C5_font_size_amended 500 exPrefs 500 exApp exBox (by with_unfolding_all rfl)).1

/-- The source's wrap step and the specification's wrap step agree on every
accumulator and word. -/
theorem wrapStep_eq_specWrapStep (maxWidth : ℚ) (mw : List Char → ℚ → ℚ)
    (fontSize : ℚ) :
    wrapStep maxWidth mw fontSize = specWrapStep maxWidth mw fontSize := by
  funext acc word
  by_cases hc : acc.2 = []
  · simp [wrapStep, specWrapStep, hc]
  · by_cases hw : mw (acc.2 ++ ' ' :: word) fontSize ≤ maxWidth
    · simp [wrapStep, specWrapStep, hc, hw, not_lt.mpr hw]
    · simp [wrapStep, specWrapStep, hc, hw, not_le.mp hw]

/-- A width measure for the boundary examples: a space measures 5 units and
every other character 10, so a 4-letter word measures 40 and a 15-letter
word measures 150, independent of the font size. -/
def mwEx (l : List Char) (_ : ℚ) : ℚ :=
  (l.map fun c => if c = ' ' then (5 : ℚ) else 10).sum

/-- C6: `wrapText` is exactly the specification's greedy word wrap, and the
boundary examples hold with `maxWidth = 100`: a single word measuring 150 is
one unsplit line; two 40-wide words joined by a 5-wide space (85 ≤ 100) stay
on one line; a third 40-wide word (130 > 100) starts a new line. -/
theorem C6_wrap_text_greedy :
    (∀ (text : List Char) (maxWidth : ℚ) (mw : List Char → ℚ → ℚ) (fontSize : ℚ),
      wrapText text maxWidth mw fontSize = specWrapText text maxWidth mw fontSize)
    ∧ mwEx "xxxxxxxxxxxxxxx".data 12 = 150
    ∧ wrapText "xxxxxxxxxxxxxxx".data 100 mwEx 12 = ["xxxxxxxxxxxxxxx".data]
    ∧ mwEx "aaaa bbbb".data 12 = 85
    ∧ wrapText "aaaa bbbb".data 100 mwEx 12 = ["aaaa bbbb".data]
    ∧ mwEx "aaaa bbbb cccc".data 12 = 130
    ∧ wrapText "aaaa bbbb cccc".data 100 mwEx 12
        = ["aaaa bbbb".data, "cccc".data] := by
  refine ⟨?_, by with_unfolding_all rfl, by with_unfolding_all rfl,
    by with_unfolding_all rfl, by with_unfolding_all rfl,
    by with_unfolding_all rfl, by with_unfolding_all rfl⟩
  intro text maxWidth mw fontSize
  simp only [wrapText, specWrapText, wrapStep_eq_specWrapStep]

/-- Every operation the line-drawing loop emits is a text draw. -/
theorem drawLinesAux_isText (mw : List Char → ℚ → ℚ) (box : TextBox)
    (pdfY : ℚ) (tc : ℚ × ℚ × ℚ) :
    ∀ (lines : List (List Char)) (y : ℚ),
      ∀ op ∈ drawLinesAux mw box pdfY tc lines y, op.isText = true := by
  intro lines
  induction lines with
  | nil =>
    intro y op hop
    simp [drawLinesAux] at hop
  | cons l rest ih =>
    intro y op hop
    rw [drawLinesAux] at hop
    by_cases hy : y < pdfY
    · simp [hy] at hop
    · simp only [if_neg hy, List.mem_cons] at hop
      rcases hop with rfl | hop
      · rfl
      · exact ih _ op hop

/-- C7: for a replace-mode box the export emits the filled background
rectangle at the converted bounds first, before every text draw; an
overlay-mode box draws no rectangle; the rectangle's color comes from the
box's background color, pure white `#FFFFFF` — which parses to (1,1,1) —
when it is absent. -/
theorem C7_replace_draw_order (mw : List Char → ℚ → ℚ) (box : TextBox)
    (pageHeight : ℚ) :
    (box.mode = TextBoxMode.replace →
      (drawTextBox mw box pageHeight).head?
        = some (DrawOp.rect box.x (pageHeight - box.y - box.height) box.width
            box.height (hexToRgb (jsBg box.backgroundColor).data))
      ∧ ∀ op ∈ (drawTextBox mw box pageHeight).tail, op.isText = true)
    ∧ (box.mode = TextBoxMode.overlay →
        ∀ op ∈ drawTextBox mw box pageHeight, op.isText = true)
    ∧ (∀ c, box.backgroundColor = some c → c ≠ "" → jsBg box.backgroundColor = c)
    ∧ (box.backgroundColor = none → jsBg box.backgroundColor = "#FFFFFF")
    ∧ hexToRgb "#FFFFFF".data = (1, 1, 1) := by
  refine ⟨?_, ?_, ?_, ?_, by with_unfolding_all rfl⟩
  · intro hmode
    constructor
    · simp [drawTextBox, hmode]
    · intro op hop
      simp only [drawTextBox, hmode, if_pos, List.singleton_append, List.tail] at hop
      exact drawLinesAux_isText mw box _ _ _ _ op hop
  · intro hmode
    intro op hop
    have : box.mode ≠ TextBoxMode.replace := by
      rw [hmode]
      intro hcontra
      cases hcontra
    simp only [drawTextBox, if_neg this, List.nil_append] at hop
    exact drawLinesAux_isText mw box _ _ _ _ op hop
  · intro c hc hne
    simp [jsBg, hc, hne]
  · intro hc
    simp [jsBg, hc]

/-- Successive specification baselines differ by one line pitch. -/
theorem specBaseline_succ (box : TextBox) (pageHeight : ℚ) (i : Nat) :
    specBaseline box pageHeight i - box.fontSize * 1.2
      = specBaseline box pageHeight (i + 1) := by
  simp only [specBaseline]
  push_cast
  ring

/-- The line-drawing loop started at the i-th baseline draws exactly the
lines from index i whose baselines, taken in order, stay at or above the
box bottom `pdfY`. -/
theorem drawLinesAux_spec (mw : List Char → ℚ → ℚ) (box : TextBox)
    (pageHeight : ℚ) :
    ∀ (lines : List (List Char)) (i : Nat),
      drawLinesAux mw box (pageHeight - box.y - box.height)
          (hexToRgb box.color.data) lines (specBaseline box pageHeight i)
        = ((lines.enumFrom i).takeWhile fun p =>
              decide (pageHeight - box.y - box.height
                ≤ specBaseline box pageHeight p.1)).map
            fun p => DrawOp.text p.2 (alignX mw box p.2)
              (specBaseline box pageHeight p.1) box.fontSize
              (hexToRgb box.color.data) := by
  intro lines
  induction lines with
  | nil => intro i; rfl
  | cons l rest ih =>
    intro i
    rw [drawLinesAux, List.enumFrom_cons, List.takeWhile_cons]
    by_cases hy : specBaseline box pageHeight i < pageHeight - box.y - box.height
    · rw [if_pos hy, if_neg (by simpa using not_le.mpr hy)]
      rfl
    · rw [if_neg hy, if_pos (by simpa using not_lt.mp hy), List.map_cons,
        specBaseline_succ, ih (i + 1)]

/-- C9: the text operations of one exported box are exactly the wrapped
lines drawn top-down — positions converted through
`pdfY = pageHeight - box.y - box.height`, the first baseline at
`pdfY + box.height - fontSize - 2`, each next line `fontSize * 1.2` lower —
truncated at the first line whose baseline falls below the box bottom. -/
theorem C9_line_positions (mw : List Char → ℚ → ℚ) (box : TextBox)
    (pageHeight : ℚ) :
    (drawTextBox mw box pageHeight).filter DrawOp.isText
      = specLineOps mw box pageHeight
          (wrapText box.text.data (box.width - 4) mw box.fontSize) := by
  have hb0 : pageHeight - box.y - box.height + box.height - box.fontSize - 2
      = specBaseline box pageHeight 0 := by
    simp [specBaseline]
  simp only [drawTextBox, List.filter_append]
  have h1 : (if box.mode = TextBoxMode.replace then
        [DrawOp.rect box.x (pageHeight - box.y - box.height) box.width box.height
          (hexToRgb (jsBg box.backgroundColor).data)]
      else []).filter DrawOp.isText = ([] : List DrawOp) := by
    split <;> rfl
  rw [h1, List.nil_append,
    List.filter_eq_self.mpr
      (drawLinesAux_isText mw box (pageHeight - box.y - box.height)
        (hexToRgb box.color.data)
        (wrapText box.text.data (box.width - 4) mw box.fontSize) _),
    hb0, drawLinesAux_spec mw box pageHeight _ 0, specLineOps,
    ← List.enum_eq_zip_range]
  rfl

/-- One of the three mutating store operations of the undo/redo claim. -/
inductive Mutation
  | add (box : TextBox)
  | update (id : String) (u : TextBoxPatch)
  | delete (id : String)

/-- Apply one mutating operation to the document store. -/
def applyMutation : Mutation → DocumentState → DocumentState
  | Mutation.add box => addTextBox box
  | Mutation.update id u => updateTextBox id u
  | Mutation.delete id => deleteTextBox id

/-- Run a sequence of mutations, each immediately preceded by exactly one
`saveHistory` call, as the editing controller does. -/
def runMutations (s : DocumentState) : List Mutation → DocumentState
  | [] => s
  | m :: ms => runMutations (applyMutation m (saveHistory s)) ms

/-- Apply `undo` n times. -/
def undoN : Nat → DocumentState → DocumentState
  | 0, s => s
  | n + 1, s => undoN n (undo s)

/-- Apply `redo` n times. -/
def redoN : Nat → DocumentState → DocumentState
  | 0, s => s
  | n + 1, s => redoN n (redo s)

/-- None of the three mutating operations touches the history. -/
theorem applyMutation_history (m : Mutation) (s : DocumentState) :
    (applyMutation m s).history = s.history := by
  cases m with
  | add box =>
    simp only [applyMutation, addTextBox]
    split <;> rfl
  | update id u => rfl
  | delete id => rfl

/-- Running a non-empty snapshot-preceded mutation sequence appends the
snapshot of the starting pages followed by one snapshot per later mutation
onto `past`, and leaves `future` empty. -/
theorem runMutations_trace (ms : List Mutation) :
    ∀ s : DocumentState, ms ≠ [] →
      ∃ tr : List HistoryState,
        (runMutations s ms).history.past
            = s.history.past ++ { pages := s.pages } :: tr
        ∧ tr.length + 1 = ms.length
        ∧ (runMutations s ms).history.future = [] := by
  induction ms with
  | nil =>
    intro s h
    exact absurd rfl h
  | cons m ms ih =>
    intro s _
    by_cases hms : ms = []
    · subst hms
      refine ⟨[], ?_, rfl, ?_⟩
      · show (applyMutation m (saveHistory s)).history.past = _
        rw [applyMutation_history]
        rfl
      · show (applyMutation m (saveHistory s)).history.future = _
        rw [applyMutation_history]
        rfl
    · obtain ⟨tr, h1, h2, h3⟩ := ih (applyMutation m (saveHistory s)) hms
      refine ⟨{ pages := (applyMutation m (saveHistory s)).pages } :: tr, ?_, ?_, h3⟩
      · show (runMutations (applyMutation m (saveHistory s)) ms).history.past = _
        rw [h1, applyMutation_history]
        show (saveHistory s).history.past ++ _ = _
        simp [saveHistory]
      · show tr.length + 1 + 1 = ms.length + 1
        rw [h2]

/-- Applying `undo` once per entry of the `past` segment `t :: tr` pops the
whole segment: the pages return to the snapshot `t`, the popped snapshots
and the current pages move to the front of `future`, and the selection is
cleared. -/
theorem undoN_spec (t : HistoryState) :
    ∀ (tr base : List HistoryState) (s : DocumentState),
      s.history.past = base ++ t :: tr →
      undoN (tr.length + 1) s
        = { s with
            pages := t.pages
            selection := { selectedBoxId := none, isEditing := false }
            history :=
              { past := base
                future := tr ++ { pages := s.pages } :: s.history.future
                canUndo := !base.isEmpty
                canRedo := true } } := by
  intro tr
  induction tr using List.reverseRecOn with
  | nil =>
    intro base s hp
    show undo s = _
    simp only [undo, hp, List.getLast?_concat, List.dropLast_concat]
    simp
  | append_singleton tr x ih =>
    intro base s hp
    have hp' : s.history.past = (base ++ t :: tr) ++ [x] := by
      rw [hp]
      simp
    have hu : undo s
        = { s with
            pages := x.pages
            selection := { selectedBoxId := none, isEditing := false }
            history :=
              { past := base ++ t :: tr
                future := { pages := s.pages } :: s.history.future
                canUndo := !(base ++ t :: tr).isEmpty
                canRedo := true } } := by
      simp only [undo, hp', List.getLast?_concat, List.dropLast_concat]
    show undoN ((tr ++ [x]).length + 1) s = _
    rw [List.length_append]
    show undoN (tr.length + 1) (undo s) = _
    rw [hu, ih base _ rfl]
    simp

/-- Applying `redo` once per entry of the `future` segment `fr ++ [x]` pops
the whole segment: the pages land on the last popped snapshot `x`, the
current pages and the earlier snapshots move back onto `past`, and the
selection is cleared. -/
theorem redoN_spec (x : HistoryState) :
    ∀ (fr f : List HistoryState) (s : DocumentState),
      s.history.future = fr ++ x :: f →
      redoN (fr.length + 1) s
        = { s with
            pages := x.pages
            selection := { selectedBoxId := none, isEditing := false }
            history :=
              { past := s.history.past ++ { pages := s.pages } :: fr
                future := f
                canUndo := true
                canRedo := !f.isEmpty } } := by
  intro fr
  induction fr with
  | nil =>
    intro f s hp
    show redo s = _
    simp only [redo, hp]
    simp
  | cons y fr ih =>
    intro f s hp
    have hr : redo s
        = { s with
            pages := y.pages
            selection := { selectedBoxId := none, isEditing := false }
            history :=
              { past := s.history.past ++ [{ pages := s.pages }]
                future := fr ++ x :: f
                canUndo := true
                canRedo := !(fr ++ x :: f).isEmpty } } := by
      simp only [redo, hp]
      rfl
    show redoN (fr.length + 1) (redo s) = _
    rw [hr, ih f _ rfl]
    simp

/-- C1: after any sequence of snapshot-preceded mutations, n undos return
the pages to the initial pages, and n redos then return the pages to the
post-mutation pages. -/
theorem C1_undo_redo_inverse (s : DocumentState) (ms : List Mutation) :
    (undoN ms.length (runMutations s ms)).pages = s.pages
    ∧ (redoN ms.length (undoN ms.length (runMutations s ms))).pages
        = (runMutations s ms).pages := by
  by_cases hms : ms = []
  · subst hms
    exact ⟨rfl, rfl⟩
  · obtain ⟨tr, hpast, hlen, hfut⟩ := runMutations_trace ms s hms
    have hn : ms.length = tr.length + 1 := hlen.symm
    have hu := undoN_spec { pages := s.pages } tr s.history.past
      (runMutations s ms) hpast
    rw [hn, hu]
    constructor
    · rfl
    · have hufut :
          ({ runMutations s ms with
              pages := ({ pages := s.pages } : HistoryState).pages
              selection := { selectedBoxId := none, isEditing := false }
              history :=
                { past := s.history.past
                  future := tr ++ { pages := (runMutations s ms).pages } ::
                    (runMutations s ms).history.future
                  canUndo := !s.history.past.isEmpty
                  canRedo := true } } : DocumentState).history.future
            = tr ++ { pages := (runMutations s ms).pages } :: [] := by
        show tr ++ _ :: (runMutations s ms).history.future = _
        rw [hfut]
      rw [redoN_spec { pages := (runMutations s ms).pages } tr [] _ hufut]

end PDFEditor
